import Mathlib

/-!
# Verification of the tiny-panda core (`Series`, `DataFrame`)

Shallow embedding of `src/core/series.ts` and `src/core/dataframe.ts`
(the revision with `loc`/`iloc`/`describe` and the constructor `Proxy`).

Modelling conventions:

* A JavaScript number is an IEEE-754 double.  The embedding `JsNum` uses an
  exact rational for the finite case plus the three non-finite values
  `NaN`, `Infinity`, `-Infinity`.  Rational arithmetic agrees with double
  arithmetic on every value any theorem below evaluates (small integers),
  and the non-finite values are propagated with IEEE semantics.
* A JS scalar is `Value` (number, string, boolean, `null`, `undefined`).
* `null` results of the TS methods are modelled as `Option.none`; thrown
  exceptions as `Except.error` carrying the message text.
* JS `Map` iterates in key-insertion order and uses SameValueZero equality,
  which on scalars coincides with structural equality of `Value`
  (`NaN` is equal to itself as a Map key, matching `SameValueZero`).
  A Map is embedded as an association list updated in place.
* A JS plain object (`Record`) stores string keys; property enumeration
  (`Object.keys`, `for..in`, `console.table`) lists array-index keys in
  ascending numeric order first and all other keys in insertion order
  (ECMAScript `OrdinaryOwnPropertyKeys`).  A Record is embedded as an
  association list plus the `recordKeyOrder` enumeration.
-/

namespace TinyPanda

open scoped List

/-- A JavaScript number: `NaN`, `±Infinity`, or a finite value
(embedded as an exact rational, see the header note). -/
inductive JsNum
  | nan
  | inf
  | ninf
  | fin (q : ℚ)
deriving DecidableEq

namespace JsNum

/-- JS `a + b` on numbers (IEEE-754 semantics; finite addition is exact here). -/
def add : JsNum → JsNum → JsNum
  | nan, _ => nan
  | _, nan => nan
  | inf, ninf => nan
  | ninf, inf => nan
  | inf, _ => inf
  | _, inf => inf
  | ninf, _ => ninf
  | _, ninf => ninf
  | fin a, fin b => fin (a + b)

/-- JS `a > b` on numbers: any comparison with `NaN` is false. -/
def gtb : JsNum → JsNum → Bool
  | nan, _ => false
  | _, nan => false
  | inf, inf => false
  | inf, _ => true
  | _, inf => false
  | ninf, ninf => false
  | ninf, _ => false
  | _, ninf => true
  | fin a, fin b => decide (b < a)

/-- JS `a < b` on numbers: any comparison with `NaN` is false. -/
def ltb : JsNum → JsNum → Bool
  | nan, _ => false
  | _, nan => false
  | inf, inf => false
  | inf, _ => false
  | _, inf => true
  | ninf, ninf => false
  | ninf, _ => true
  | _, ninf => false
  | fin a, fin b => decide (a < b)

/-- JS `x / n` where `n` is an array length (a nonnegative integer):
`0/0 = NaN`, `q/0 = ±Infinity` for `q ≠ 0`, and non-finite numerators
propagate. -/
def divNat (x : JsNum) (n : Nat) : JsNum :=
  if n = 0 then
    match x with
    | fin q => if q = 0 then nan else if 0 < q then inf else ninf
    | y => y
  else
    match x with
    | fin q => fin (q / (n : ℚ))
    | y => y

end JsNum

/-- A JS scalar value as stored in a `Series`. -/
inductive Value
  | num (x : JsNum)
  | str (s : String)
  | bool (b : Bool)
  | null
  | undefined
deriving DecidableEq

/-- `typeof v === "number"`. -/
def Value.isNum : Value → Bool
  | .num _ => true
  | _ => false

/-- The numeric payload; only applied under an `isNum` guard. -/
def Value.asNum : Value → JsNum
  | .num x => x
  | _ => .nan

/-- `Series` from `src/core/series.ts`: a wrapper around its `values` array. -/
structure Series where
  values : List Value
deriving DecidableEq

/-- `Array.prototype.slice(start, end)`: negative arguments count from the
end (`max(len + i, 0)`), positive ones are clamped to `len`. -/
def jsSlice (l : List Value) (a b : Int) : List Value :=
  let len : Int := l.length
  let s : Int := if a < 0 then max (len + a) 0 else min a len
  let e : Int := if b < 0 then max (len + b) 0 else min b len
  ((l.drop s.toNat).take (e - s).toNat)

/-- `Series.length()`. -/
def Series.length (s : Series) : Nat := s.values.length

/-- `Series.head(n)`: `values.slice(0, n)`. -/
def Series.head (s : Series) (n : Int) : Series :=
  ⟨jsSlice s.values 0 n⟩

/-- `Series.tail(n)`: `values.slice(values.length - n, values.length)`. -/
def Series.tail (s : Series) (n : Int) : Series :=
  ⟨jsSlice s.values ((s.values.length : Int) - n) (s.values.length : Int)⟩

/-- `Series.sum()`: `null` unless every element is a number, otherwise the
left fold of `+` over the values starting from `0`. -/
def Series.sum (s : Series) : Option JsNum :=
  if s.values.all Value.isNum then
    some (s.values.foldl (fun acc v => acc.add v.asNum) (.fin 0))
  else none

/-- `Series.max()`: `null` unless all numeric; otherwise scan with seed
`-Infinity`, updating on `val > maxVal`. -/
def Series.max (s : Series) : Option JsNum :=
  if s.values.all Value.isNum then
    some (s.values.foldl (fun m v => if JsNum.gtb v.asNum m then v.asNum else m) .ninf)
  else none

/-- `Series.min()`: `null` unless all numeric; otherwise scan with seed
`Infinity`, updating on `val < minVal`. -/
def Series.min (s : Series) : Option JsNum :=
  if s.values.all Value.isNum then
    some (s.values.foldl (fun m v => if JsNum.ltb v.asNum m then v.asNum else m) .inf)
  else none

/-- `Series.mean()`: `null` unless all numeric; otherwise
`sum != null ? sum / values.length : null`. -/
def Series.mean (s : Series) : Option JsNum :=
  if s.values.all Value.isNum then
    match s.sum with
    | some t => some (t.divNat s.values.length)
    | none => none
  else none

/-! ## Frequency map (`new Map(); counts.set(val, (counts.get(val) || 0) + 1)`)

A JS `Map` keeps keys in insertion order; `set` on an existing key updates
its value in place.  `countsList l` is the entry list of the counting Map
built by both `valueCounts` and `mode`. -/

/-- One `counts.set(v, (counts.get(v) || 0) + 1)` step on the entry list. -/
def upsertCount : List (Value × Nat) → Value → List (Value × Nat)
  | [], v => [(v, 1)]
  | (k, c) :: rest, v => if k = v then (k, c + 1) :: rest else (k, c) :: upsertCount rest v

/-- The entries of the counting `Map` after scanning `l` left to right. -/
def countsList (l : List Value) : List (Value × Nat) := l.foldl upsertCount []

/-- The distinct values of `l` in first-occurrence order (the key order of
the counting Map). -/
def firstOccs (l : List Value) : List Value :=
  l.foldl (fun acc v => if v ∈ acc then acc else acc ++ [v]) []

/-- One step of the `mode()` scan:
`if (count > maxCount) { maxCount = count; mode = val }`. -/
def modeStep (acc : Option Value × Nat) (p : Value × Nat) : Option Value × Nat :=
  if p.2 > acc.2 then (some p.1, p.2) else acc

/-- `Series.mode()`: `null` on the empty series, otherwise the scan over the
counting Map's entries with `maxCount = 0`, `mode = null`. -/
def Series.mode (s : Series) : Option Value :=
  if s.values.length = 0 then none
  else ((countsList s.values).foldl modeStep (none, 0)).1

/-! ## `Series.valueCounts(desc)`

The source builds the counting Map, turns it into an entry array, sorts it
with the comparator `(a, b) => b[1] - a[1]` when `desc` (ECMAScript sorts
are stable, so entries with equal counts keep their first-seen order; the
left-fold insertion sort below inserts each later entry after every entry
with a greater-or-equal count and therefore computes exactly that stable
sort), and then copies the entries into a fresh plain object
`result[val] = count`, stringifying each key.  The observable result is the
object's property enumeration, modelled by `recordKeyOrder ∘ buildRecord`. -/

/-- Insert an entry after every entry whose count is ≥ its own. -/
def insertByCount (p : Value × Nat) : List (Value × Nat) → List (Value × Nat)
  | [] => [p]
  | q :: rest => if q.2 < p.2 then p :: q :: rest else q :: insertByCount p rest

/-- Stable sort by count descending (the `desc` branch of `valueCounts`). -/
def sortByCountDesc (l : List (Value × Nat)) : List (Value × Nat) :=
  l.foldl (fun acc p => insertByCount p acc) []

/-- Decimal value of a digit string. -/
def digitsVal (s : String) : Nat :=
  s.data.foldl (fun n c => n * 10 + (c.toNat - 48)) 0

/-- Whether a string is an ECMAScript array-index property key: the
canonical decimal form of an integer `0 ≤ n < 2^32 - 1`. -/
def isIndexKey (s : String) : Bool :=
  match s.data with
  | [] => false
  | c :: cs =>
    (c :: cs).all Char.isDigit && (cs.isEmpty || !(c == '0')) &&
      digitsVal s < 4294967295

/-- Smallest `k ≤ 40` with `den ∣ 10^k`, if any. -/
def tenPow? (den : Nat) : Option Nat :=
  (List.range 41).find? (fun k => 10 ^ k % den == 0)

/-- Left-pad a digit string with zeros to width `k`. -/
def padZeros (s : String) (k : Nat) : String :=
  String.mk (List.replicate (k - s.length) '0') ++ s

/-- `String(q)` for a nonnegative finite number: integers print in decimal;
a fraction whose denominator divides a power of ten prints as its exact
(shortest) decimal expansion, which is what JS prints for such doubles.
Other rationals are not exact doubles and are never evaluated by any
theorem below; they get an out-of-scope marker. -/
def ratToKeyNN (q : ℚ) : String :=
  if q.den = 1 then Nat.repr q.num.toNat
  else
    match tenPow? q.den with
    | some k =>
      let n : Nat := q.num.toNat * (10 ^ k / q.den)
      Nat.repr (n / 10 ^ k) ++ "." ++ padZeros (Nat.repr (n % 10 ^ k)) k
    | none => "<nondecimal>"

/-- `String(x)` for a number. -/
def numToKey : JsNum → String
  | .nan => "NaN"
  | .inf => "Infinity"
  | .ninf => "-Infinity"
  | .fin q => if q < 0 then "-" ++ ratToKeyNN (-q) else ratToKeyNN q

/-- `String(v)`: the property key a value becomes in `result[val] = count`. -/
def toKey : Value → String
  | .num x => numToKey x
  | .str s => s
  | .bool b => if b then "true" else "false"
  | .null => "null"
  | .undefined => "undefined"

/-- `result[k] = c` on a plain object: replace in place or append. -/
def recordSet : List (String × Nat) → String → Nat → List (String × Nat)
  | [], k, c => [(k, c)]
  | (k0, c0) :: rest, k, c =>
    if k0 = k then (k0, c) :: rest else (k0, c0) :: recordSet rest k c

/-- `for (const [val, count] of countsArray) result[val] = count`. -/
def buildRecord (l : List (Value × Nat)) : List (String × Nat) :=
  l.foldl (fun m p => recordSet m (toKey p.1) p.2) []

/-- Insert an entry before the first entry with a larger numeric key. -/
def insertIdxAsc (p : String × Nat) : List (String × Nat) → List (String × Nat)
  | [] => [p]
  | q :: rest => if digitsVal p.1 < digitsVal q.1 then p :: q :: rest else q :: insertIdxAsc p rest

/-- Sort entries by numeric key ascending (keys are distinct in a record). -/
def sortIdxAsc (l : List (String × Nat)) : List (String × Nat) :=
  l.foldl (fun acc p => insertIdxAsc p acc) []

/-- ECMAScript property enumeration order of a plain object: array-index
keys in ascending numeric order first, then the remaining string keys in
insertion order. -/
def recordKeyOrder (m : List (String × Nat)) : List (String × Nat) :=
  sortIdxAsc (m.filter (fun p => isIndexKey p.1)) ++
    m.filter (fun p => !(isIndexKey p.1))

/-- `Series.valueCounts(desc)`, as its observable entry enumeration. -/
def Series.valueCounts (s : Series) (desc : Bool) : List (String × Nat) :=
  let arr := countsList s.values
  let arr := if desc then sortByCountDesc arr else arr
  recordKeyOrder (buildRecord arr)

/-! ## `DataFrame` (`src/core/dataframe.ts`)

The constructor argument is an arbitrary JS value: an array, a plain
object, or a primitive.  `JVal` is that universe (functions, dates and
other exotic objects are outside the spec's data model and not modelled).
A constructed `DataFrame` is its `columns` record: column names in
declaration order, each with its `values` array (the `Series` wrapper
adds nothing but the `values` field and is elided). -/

/-- A JS value as passed to the `DataFrame` constructor. -/
inductive JVal
  | prim (v : Value)
  | varr (elems : List JVal)
  | vobj (fields : List (String × JVal))

/-- `typeof r === "object" && r !== null` (on this universe: array or
plain object; `typeof null` is `"object"` but the code excludes `null`). -/
def isObjNonNull : JVal → Bool
  | .varr _ => true
  | .vobj _ => true
  | _ => false

/-- `Object.keys(r)`: own enumerable keys — an array contributes its index
strings, an object its field names in insertion order. -/
def objKeys : JVal → List String
  | .vobj fs => fs.map Prod.fst
  | .varr es => (List.range es.length).map Nat.repr
  | _ => []

/-- JS property read `r[k]` (absent properties give `undefined`). -/
def getProp : JVal → String → JVal
  | .vobj fs, k => (fs.lookup k).getD (.prim .undefined)
  | .varr es, k =>
    if k = "length" then .prim (.num (.fin es.length))
    else if isIndexKey k then es.getD (digitsVal k) (.prim .undefined)
    else .prim .undefined
  | _, _ => .prim .undefined

/-- `rowKeys.length === keys.length && rowKeys.every(k => keys.includes(k))`. -/
def sameKeysAs (keys rowKeys : List String) : Bool :=
  rowKeys.length == keys.length && rowKeys.all (fun k => keys.contains k)

/-- The error, if any, that the row-validation loop raises for one row. -/
def rowError (keys : List String) (r : JVal) : Option String :=
  if !(isObjNonNull r) then
    some "DataFrame constructor: array elements must be objects."
  else if sameKeysAs keys (objKeys r) then none
  else some "DataFrame constructor: all objects must have the same keys."

/-- `Array.isArray(data[k]) ? data[k].length : -1`. -/
def arrLenOrNeg : JVal → Int
  | .varr es => (es.length : Int)
  | _ => -1

/-- The element list of an array value. -/
def arrElems : JVal → List JVal
  | .varr es => es
  | _ => []

/-- A constructed DataFrame: its `columns` record (name, `values`) in
declaration order. -/
structure DataFrame where
  cols : List (String × List JVal)

/-- The `DataFrame` constructor.  Validation failures throw
(`Except.error` with the thrown message); on success the column record is
built.  Because the columns are only returned on success, no partially
constructed table is observable.  (The `Proxy` wrapper the source returns
changes property get/set behaviour only; see `dfProxySet`.) -/
def dfCtor : JVal → Except String DataFrame
  | .varr [] => .error "DataFrame constructor: expected a non-empty array of objects."
  | .varr (r0 :: rest) =>
    if !(isObjNonNull r0) then
      .error "DataFrame constructor: expected a non-empty array of objects."
    else
      match (r0 :: rest).findSome? (rowError (objKeys r0)) with
      | some e => .error e
      | none =>
        .ok ⟨(objKeys r0).map (fun k => (k, (r0 :: rest).map (fun r => getProp r k)))⟩
  | .vobj [] => .error "DataFrame constructor: object must have at least one key."
  | .vobj (f0 :: fs) =>
    if ((f0 :: fs).map (fun p => arrLenOrNeg p.2)).contains (-1) then
      .error "DataFrame constructor: all values in object must be arrays."
    else if ((f0 :: fs).map (fun p => arrLenOrNeg p.2)).all (fun len => len == arrLenOrNeg f0.2) then
      .ok ⟨(f0 :: fs).map (fun p => (p.1, arrElems p.2))⟩
    else .error "DataFrame constructor: all arrays must have the same length."
  | .prim _ => .error "DataFrame constructor: expected array of objects or object of arrays."

/-- `DataFrame.columnNames()`: `Object.keys(this.columns)`. -/
def DataFrame.columnNames (df : DataFrame) : List String := df.cols.map Prod.fst

/-- `DataFrame.length()`: the first column's length, `0` with no columns. -/
def DataFrame.length (df : DataFrame) : Nat :=
  match df.cols with
  | [] => 0
  | c :: _ => c.2.length

/-- `this.columns[k].values` (empty when the column is missing; reads of a
missing column are always guarded in the methods modelled below). -/
def DataFrame.colValues (df : DataFrame) (k : String) : List JVal :=
  (df.cols.lookup k).getD []

/-- `DataFrame.loc(rowIndex, colName)`: range-checked, label-checked read. -/
def DataFrame.loc (df : DataFrame) (rowIndex : Int) (colName : String) : Except String JVal :=
  if rowIndex < 0 ∨ (df.length : Int) ≤ rowIndex then
    .error s!"Row index {rowIndex} out of range"
  else if !(df.columnNames.contains colName) then
    .error s!"Column \x22{colName}\x22 does not exist"
  else
    .ok ((df.colValues colName).getD rowIndex.toNat (.prim .undefined))

/-- `DataFrame.iloc(rowIndex)` (the `colIndex === null` branch): the row as
a column-name→value record. -/
def DataFrame.iloc (df : DataFrame) (rowIndex : Nat) : List (String × JVal) :=
  df.cols.map (fun p => (p.1, p.2.getD rowIndex (.prim .undefined)))

/-- `typeof v === "number"` on the constructor-argument universe. -/
def JVal.isNumJ : JVal → Bool
  | .prim (.num _) => true
  | _ => false

/-- Numeric payload, guarded by `isNumJ`. -/
def JVal.asNumJ : JVal → JsNum
  | .prim (.num x) => x
  | _ => .nan

/-- `Series.sum()` applied to a DataFrame column's values. -/
def seriesSumJ (values : List JVal) : Option JsNum :=
  if values.all JVal.isNumJ then
    some (values.foldl (fun acc v => acc.add v.asNumJ) (.fin 0))
  else none

/-- `DataFrame.sum(k)` with a (truthy) column name `k`, in the revision
whose missing-column branch is `console.error(...)` followed by
`return this.columns[k].sum()`.  The result pairs the console output with
the outcome: for a missing column the message is only logged, and the
subsequent member access on `undefined` throws a `TypeError` (standard JS
semantics), not the logged not-found error.  `max`/`min`/`mean`/`median`/
`mode` have byte-for-byte the same guard. -/
def DataFrame.sumCol (df : DataFrame) (k : String) :
    List String × Except String (Option JsNum) :=
  if !(df.columnNames.contains k) then
    ([s!"Column \x22{k}\x22 does not exist in DataFrame."],
      .error "TypeError: Cannot read properties of undefined (reading \x27sum\x27)")
  else
    ([], .ok (seriesSumJ (df.colValues k)))

/-- The constructor's `Proxy` `set` trap: every property assignment on a
constructed DataFrame (`df.a = …`, `df.columns = …`, …) throws. -/
def dfProxySet (_df : DataFrame) (_prop : String) (_v : JVal) : Except String DataFrame :=
  .error "Direct assignment to Dataframe value is not allowed."

/-- The write `df.columns[col].values[i] = v`.  Only the DataFrame itself
is proxied; the `Series` object and its `values` array reached through the
`get` trap are ordinary objects, so this assignment succeeds silently and
mutates the column in place.  The result is the mutated DataFrame. -/
def dfSetCellViaValues (df : DataFrame) (col : String) (i : Nat) (v : JVal) : DataFrame :=
  ⟨df.cols.map (fun p => if p.1 = col then (p.1, p.2.set i v) else p)⟩

/-! ## Concrete instances used by the theorems -/

/-- `new Series([1, 2, 3])`. -/
def s123 : Series := ⟨[.num (.fin 1), .num (.fin 2), .num (.fin 3)]⟩

/-- `new Series([1, 1, 2, 3])` (the spec's uniform-start mode example). -/
def sC3 : Series := ⟨[.num (.fin 1), .num (.fin 1), .num (.fin 2), .num (.fin 3)]⟩

/-- `new Series(['a','b','a','c','a','d'])` (the spec's valueCounts example). -/
def sC4 : Series := ⟨[.str "a", .str "b", .str "a", .str "c", .str "a", .str "d"]⟩

/-- `new Series([5, 5, 1])`. -/
def sC4bad : Series := ⟨[.num (.fin 5), .num (.fin 5), .num (.fin 1)]⟩

/-- `new Series([1, 1, "1"])`: two distinct values, one string key. -/
def sC10 : Series := ⟨[.num (.fin 1), .num (.fin 1), .str "1"]⟩

/-- `new DataFrame([[1, 2], [3, 4]])`: an array of arrays. -/
def dC5bad : JVal :=
  .varr [.varr [.prim (.num (.fin 1)), .prim (.num (.fin 2))],
         .varr [.prim (.num (.fin 3)), .prim (.num (.fin 4))]]

/-- `new DataFrame({a: [1, 2], b: ["x", "y"]})`. -/
def dC5ok : JVal :=
  .vobj [("a", .varr [.prim (.num (.fin 1)), .prim (.num (.fin 2))]),
         ("b", .varr [.prim (.str "x"), .prim (.str "y")])]

/-- The row records `[{a:1, b:2}, {b:20, a:10}]` (second row's keys in the
other order). -/
def rowsC8 : List JVal :=
  [.vobj [("a", .prim (.num (.fin 1))), ("b", .prim (.num (.fin 2)))],
   .vobj [("b", .prim (.num (.fin 20))), ("a", .prim (.num (.fin 10)))]]

/-- The table `new DataFrame(rowsC8)` builds. -/
def dfC8 : DataFrame :=
  ⟨[("a", [.prim (.num (.fin 1)), .prim (.num (.fin 10))]),
    ("b", [.prim (.num (.fin 2)), .prim (.num (.fin 20))])]⟩

/-- `new DataFrame({name: ['A','B','C'], value: [10,20,30]})` (columns). -/
def dC6 : DataFrame :=
  ⟨[("name", [.prim (.str "A"), .prim (.str "B"), .prim (.str "C")]),
    ("value", [.prim (.num (.fin 10)), .prim (.num (.fin 20)), .prim (.num (.fin 30))])]⟩

/-- `new DataFrame([{a: 1, b: 2}])` (columns). -/
def dC7 : DataFrame :=
  ⟨[("a", [.prim (.num (.fin 1))]), ("b", [.prim (.num (.fin 2))])]⟩

/-- Probe: the numeric content of cell `(col, i)`, used to compare
DataFrames without an equality decision procedure for `JVal`. -/
def cellNum (df : DataFrame) (col : String) (i : Nat) : Option JsNum :=
  match ((df.cols.lookup col).getD []).getD i (.prim .null) with
  | .prim (.num x) => some x
  | _ => none

/-- The claim's notion of a well-formed constructor input (C5, verbatim
from the spec): a nonempty sequence of row-records — objects with field
names — all with the same key set, or a nonempty mapping whose values are
equal-length arrays; everything else is malformed. -/
def claimValidInput : JVal → Bool
  | .varr [] => false
  | .varr (r0 :: rest) =>
    (match r0 with | .vobj _ => true | _ => false) &&
      (r0 :: rest).all (fun r =>
        (match r with | .vobj _ => true | _ => false) &&
          sameKeysAs (objKeys r0) (objKeys r))
  | .vobj [] => false
  | .vobj (f0 :: fs) =>
    (f0 :: fs).all (fun f => (0 ≤ arrLenOrNeg f.2) && arrLenOrNeg f.2 == arrLenOrNeg f0.2)
  | .prim _ => false

/-- Input well-formedness inherited from JavaScript itself: an object
cannot carry duplicate property names.  (Arrays' index keys are distinct
automatically; the hypothesis asks it uniformly of every row.) -/
@[reducible]
def WfInput : JVal → Prop
  | .varr rows => ∀ r ∈ rows, (objKeys r).Nodup
  | .vobj fs => (fs.map Prod.fst).Nodup
  | .prim _ => True

/-- The amended validity predicate for C5: like the claim's, but a row may
be any non-null object — in particular an array, whose key set is its set
of index strings — as long as all rows have the same key set. -/
def AmendedValid : JVal → Prop
  | .varr rows => rows ≠ [] ∧ ∃ ks : List String,
      ∀ r ∈ rows, isObjNonNull r = true ∧ (objKeys r).Perm ks
  | .vobj fs => fs ≠ [] ∧ ∃ n : Nat,
      ∀ f ∈ fs, ∃ es, f.2 = JVal.varr es ∧ es.length = n
  | .prim _ => False

/-- Whether a value is a row record (a plain object). -/
def isRecordRow : JVal → Bool
  | .vobj _ => true
  | _ => false

/-- The field list of a row record. -/
def rowFields : JVal → List (String × JVal)
  | .vobj fs => fs
  | _ => []

instance instDecidableWfInput (d : JVal) : Decidable (WfInput d) := by
  cases d with
  | prim v => exact inferInstance
  | varr rows => exact (inferInstance : Decidable (∀ r ∈ rows, (objKeys r).Nodup))
  | vobj fs => exact (inferInstance : Decidable ((fs.map Prod.fst).Nodup))

/-- A plain string value whose text is not an array-index key (such values
keep both their identity and their insertion order as record keys). -/
def isPlainStr : Value → Bool
  | .str w => !(isIndexKey w)
  | _ => false

/-! ## Theorems -/

/-! ### The counting Map: characterization lemmas -/

theorem countsList_snoc (l : List Value) (x : Value) :
    countsList (l ++ [x]) = upsertCount (countsList l) x := by
  simp [countsList, List.foldl_append]

theorem firstOccs_snoc (l : List Value) (x : Value) :
    firstOccs (l ++ [x]) =
      if x ∈ firstOccs l then firstOccs l else firstOccs l ++ [x] := by
  simp [firstOccs, List.foldl_append]

theorem mem_firstOccs {l : List Value} {a : Value} : a ∈ firstOccs l ↔ a ∈ l := by
  induction l using List.reverseRecOn generalizing a with
  | nil => simp [firstOccs]
  | append_singleton l x ih =>
    rw [firstOccs_snoc]
    by_cases hx : x ∈ firstOccs l
    · rw [if_pos hx]
      simp only [List.mem_append, List.mem_singleton, ih]
      constructor
      · exact Or.inl
      · rintro (h | rfl)
        · exact h
        · exact ih.mp hx
    · rw [if_neg hx]
      simp [ih]

theorem nodup_firstOccs {l : List Value} : (firstOccs l).Nodup := by
  induction l using List.reverseRecOn with
  | nil => simp [firstOccs]
  | append_singleton l x ih =>
    rw [firstOccs_snoc]
    by_cases hx : x ∈ firstOccs l
    · rwa [if_pos hx]
    · rw [if_neg hx]
      simp [List.nodup_append, ih, hx]

theorem upsert_of_not_mem {x : Value} {m : List (Value × Nat)}
    (h : x ∉ m.map Prod.fst) : upsertCount m x = m ++ [(x, 1)] := by
  induction m with
  | nil => rfl
  | cons p m ih =>
    obtain ⟨k, c⟩ := p
    have hne : k ≠ x := by
      intro he
      exact h (by simp [he])
    simp only [upsertCount, if_neg hne, List.cons_append, List.cons.injEq, true_and]
    exact ih (fun hm => h (by
      simp only [List.map_cons]
      exact List.mem_cons_of_mem _ hm))

theorem upsert_mapped (ks : List Value) (f g : Value → Nat) (x : Value)
    (hx : x ∈ ks) (hnd : ks.Nodup)
    (hfg : ∀ v ∈ ks, v ≠ x → f v = g v) (hgx : g x = f x + 1) :
    upsertCount (ks.map fun v => (v, f v)) x = ks.map fun v => (v, g v) := by
  induction ks with
  | nil => exact absurd hx (List.not_mem_nil x)
  | cons k ks ih =>
    rcases List.mem_cons.mp hx with rfl | hx'
    · have hks : ∀ v ∈ ks, v ≠ x := fun v hv he =>
        (List.nodup_cons.mp hnd).1 (he ▸ hv)
      simp only [List.map_cons, upsertCount, if_pos rfl]
      have h1 : f x + 1 = g x := hgx.symm
      have h2 : ks.map (fun v => (v, f v)) = ks.map (fun v => (v, g v)) :=
        List.map_congr_left (fun v hv => by
          rw [hfg v (List.mem_cons_of_mem _ hv) (hks v hv)])
      rw [h1, h2]
      simp
    · have hkx : k ≠ x := fun he => (List.nodup_cons.mp hnd).1 (he ▸ hx')
      simp only [List.map_cons, upsertCount, if_neg hkx]
      rw [hfg k (List.mem_cons_self k ks) hkx,
        ih hx' (List.nodup_cons.mp hnd).2 (fun v hv => hfg v (List.mem_cons_of_mem _ hv))]

theorem countsList_eq (l : List Value) :
    countsList l = (firstOccs l).map (fun v => (v, l.count v)) := by
  induction l using List.reverseRecOn with
  | nil => rfl
  | append_singleton l x ih =>
    rw [countsList_snoc, ih, firstOccs_snoc]
    by_cases hx : x ∈ firstOccs l
    · rw [if_pos hx]
      refine upsert_mapped _ _ _ _ hx nodup_firstOccs ?_ ?_
      · intro v _ hne
        simp [List.count_append, List.count_singleton', Ne.symm hne]
      · simp [List.count_append, List.count_singleton']
    · rw [if_neg hx]
      have hxl : x ∉ l := fun h => hx (mem_firstOccs.mpr h)
      rw [upsert_of_not_mem (by simpa using hx), List.map_append]
      simp only [List.map_singleton]
      congr 1
      · exact List.map_congr_left (fun v hv => by
          have hvx : v ≠ x := fun he => hxl (he ▸ mem_firstOccs.mp hv)
          simp [List.count_append, List.count_singleton', Ne.symm hvx])
      · simp [List.count_append, List.count_singleton',
          List.count_eq_zero.mpr hxl]

theorem firstOccs_pairwise_idx (l : List Value) :
    (firstOccs l).Pairwise (fun a b => l.indexOf a < l.indexOf b) := by
  induction l using List.reverseRecOn with
  | nil => simp [firstOccs]
  | append_singleton l x ih =>
    rw [firstOccs_snoc]
    have htrans : (firstOccs l).Pairwise
        (fun a b => (l ++ [x]).indexOf a < (l ++ [x]).indexOf b) := by
      refine ih.imp_of_mem ?_
      intro a b ha hb hab
      rw [List.indexOf_append_of_mem (mem_firstOccs.mp ha),
        List.indexOf_append_of_mem (mem_firstOccs.mp hb)]
      exact hab
    by_cases hx : x ∈ firstOccs l
    · rwa [if_pos hx]
    · rw [if_neg hx]
      have hxl : x ∉ l := fun h => hx (mem_firstOccs.mpr h)
      rw [List.pairwise_append]
      refine ⟨htrans, List.pairwise_singleton _ _, ?_⟩
      intro a ha b hb
      rw [List.mem_singleton.mp hb]
      have hal : a ∈ l := mem_firstOccs.mp ha
      rw [List.indexOf_append_of_mem hal, List.indexOf_append_of_not_mem hxl]
      calc l.indexOf a < l.length := List.indexOf_lt_length.mpr hal
        _ ≤ l.length + [x].indexOf x := Nat.le_add_right _ _

/-! ### The `mode()` scan -/

theorem foldl_modeStep_le (cs : List (Value × Nat)) :
    ∀ (acc : Option Value × Nat), (∀ p ∈ cs, p.2 ≤ acc.2) →
      cs.foldl modeStep acc = acc := by
  induction cs with
  | nil => intro acc _; rfl
  | cons c cs ih =>
    intro acc h
    have hc : ¬ (c.2 > acc.2) := not_lt.mpr (h c (List.mem_cons_self c cs))
    simp only [List.foldl_cons, modeStep, if_neg hc]
    exact ih acc (fun p hp => h p (List.mem_cons_of_mem _ hp))

theorem modeStep_snd_le (acc : Option Value × Nat) (c : Value × Nat) :
    acc.2 ≤ (modeStep acc c).2 ∧ c.2 ≤ (modeStep acc c).2 := by
  by_cases h : c.2 > acc.2 <;> simp [modeStep, h] <;> omega

theorem foldl_modeStep_spec (cs : List (Value × Nat)) :
    ∀ (acc : Option Value × Nat), (∃ p ∈ cs, acc.2 < p.2) →
    ∃ (i : Nat) (hi : i < cs.length),
      cs.foldl modeStep acc = (some (cs[i]).1, (cs[i]).2) ∧
      acc.2 < (cs[i]).2 ∧
      (∀ (j : Nat) (hj : j < cs.length), (cs[j]).2 ≤ (cs[i]).2) ∧
      (∀ (j : Nat) (hj : j < cs.length), j < i → (cs[j]).2 < (cs[i]).2) := by
  induction cs with
  | nil =>
    rintro acc ⟨p, hp, _⟩
    exact absurd hp (List.not_mem_nil p)
  | cons c cs ih =>
    intro acc hex
    have hstep := modeStep_snd_le acc c
    by_cases hrest : ∃ p ∈ cs, (modeStep acc c).2 < p.2
    · obtain ⟨i, hi, heq, hacc, hmax, hfirst⟩ := ih (modeStep acc c) hrest
      refine ⟨i + 1, Nat.succ_lt_succ hi, ?_, ?_, ?_, ?_⟩
      · simpa only [List.foldl_cons, List.getElem_cons_succ] using heq
      · simpa only [List.getElem_cons_succ] using lt_of_le_of_lt hstep.1 hacc
      · intro j hj
        cases j with
        | zero =>
          simp only [List.getElem_cons_zero, List.getElem_cons_succ]
          exact le_of_lt (lt_of_le_of_lt hstep.2 hacc)
        | succ j' =>
          simp only [List.getElem_cons_succ]
          exact hmax j' (Nat.lt_of_succ_lt_succ hj)
      · intro j hj hji
        cases j with
        | zero =>
          simp only [List.getElem_cons_zero, List.getElem_cons_succ]
          exact lt_of_le_of_lt hstep.2 hacc
        | succ j' =>
          simp only [List.getElem_cons_succ]
          exact hfirst j' (Nat.lt_of_succ_lt_succ hj) (Nat.lt_of_succ_lt_succ hji)
    · push_neg at hrest
      have hfold : cs.foldl modeStep (modeStep acc c) = modeStep acc c :=
        foldl_modeStep_le cs _ hrest
      by_cases hc : c.2 > acc.2
      · refine ⟨0, Nat.succ_pos _, ?_, ?_, ?_, ?_⟩
        · rw [List.foldl_cons, hfold]
          simp [modeStep, hc]
        · simpa using hc
        · intro j hj
          cases j with
          | zero => exact le_refl _
          | succ j' =>
            have hj' : j' < cs.length := Nat.lt_of_succ_lt_succ hj
            have := hrest (cs[j']) (List.getElem_mem hj')
            simp only [modeStep, if_pos hc] at this
            simpa using this
        · intro j hj hji
          exact absurd hji (Nat.not_lt_zero _)
      · exfalso
        obtain ⟨p, hp, hlt⟩ := hex
        rcases List.mem_cons.mp hp with rfl | hp'
        · exact hc hlt
        · have := hrest p hp'
          simp only [modeStep, if_neg hc] at this
          exact absurd hlt (not_lt.mpr this)

/-! ### The `valueCounts()` pipeline: stable sort and record lemmas -/

theorem mem_insertByCount {y p : Value × Nat} {m : List (Value × Nat)} :
    y ∈ insertByCount p m ↔ y = p ∨ y ∈ m := by
  induction m with
  | nil => simp [insertByCount]
  | cons q m ih =>
    by_cases h : q.2 < p.2
    · simp only [insertByCount, if_pos h, List.mem_cons]
    · simp only [insertByCount, if_neg h, List.mem_cons, ih]
      tauto

theorem insertByCount_perm (p : Value × Nat) (m : List (Value × Nat)) :
    insertByCount p m ~ p :: m := by
  induction m with
  | nil => exact List.Perm.refl _
  | cons q m ih =>
    by_cases h : q.2 < p.2
    · simp [insertByCount, h]
    · simp only [insertByCount, if_neg h]
      calc q :: insertByCount p m ~ q :: p :: m := ih.cons q
        _ ~ p :: q :: m := List.Perm.swap p q m

theorem foldl_insert_perm (l : List (Value × Nat)) :
    ∀ acc, l.foldl (fun acc p => insertByCount p acc) acc ~ acc ++ l := by
  induction l with
  | nil => intro acc; simp
  | cons p l ih =>
    intro acc
    calc l.foldl (fun acc p => insertByCount p acc) (insertByCount p acc)
        ~ insertByCount p acc ++ l := ih _
      _ ~ (p :: acc) ++ l := (insertByCount_perm p acc).append_right l
      _ ~ acc ++ p :: l := List.perm_middle.symm

theorem sortByCountDesc_perm (l : List (Value × Nat)) : sortByCountDesc l ~ l := by
  simpa using foldl_insert_perm l []

theorem insertByCount_pairwise {R : Value × Nat → Value × Nat → Prop}
    {m : List (Value × Nat)} {p : Value × Nat}
    (hm : m.Pairwise (fun a b => b.2 < a.2 ∨ (a.2 = b.2 ∧ R a b)))
    (hR : ∀ a ∈ m, R a p) :
    (insertByCount p m).Pairwise (fun a b => b.2 < a.2 ∨ (a.2 = b.2 ∧ R a b)) := by
  induction m with
  | nil => simp [insertByCount]
  | cons q m ih =>
    rw [List.pairwise_cons] at hm
    by_cases h : q.2 < p.2
    · simp only [insertByCount, if_pos h]
      rw [List.pairwise_cons]
      refine ⟨?_, List.pairwise_cons.mpr hm⟩
      intro y hy
      rcases List.mem_cons.mp hy with rfl | hy'
      · exact Or.inl h
      · have hqy := hm.1 y hy'
        have hle : y.2 ≤ q.2 := by
          rcases hqy with h1 | ⟨h1, _⟩
          · exact le_of_lt h1
          · exact le_of_eq h1.symm
        exact Or.inl (lt_of_le_of_lt hle h)
    · simp only [insertByCount, if_neg h]
      rw [List.pairwise_cons]
      refine ⟨?_, ih hm.2 (fun a ha => hR a (List.mem_cons_of_mem _ ha))⟩
      intro y hy
      rcases mem_insertByCount.mp hy with rfl | hy'
      · rcases lt_or_eq_of_le (not_lt.mp h) with h1 | h1
        · exact Or.inl h1
        · exact Or.inr ⟨h1.symm, hR q (List.mem_cons_self q m)⟩
      · exact hm.1 y hy'

theorem foldl_insert_pairwise {R : Value × Nat → Value × Nat → Prop}
    (l : List (Value × Nat)) :
    ∀ acc, acc.Pairwise (fun a b => b.2 < a.2 ∨ (a.2 = b.2 ∧ R a b)) →
    l.Pairwise R →
    (∀ a ∈ acc, ∀ x ∈ l, R a x) →
    (l.foldl (fun acc p => insertByCount p acc) acc).Pairwise
      (fun a b => b.2 < a.2 ∨ (a.2 = b.2 ∧ R a b)) := by
  induction l with
  | nil => intro acc hacc _ _; exact hacc
  | cons p l ih =>
    intro acc hacc hl hcross
    rw [List.pairwise_cons] at hl
    refine ih (insertByCount p acc) ?_ hl.2 ?_
    · exact insertByCount_pairwise hacc
        (fun a ha => hcross a ha p (List.mem_cons_self p l))
    · intro a ha x hx
      rcases mem_insertByCount.mp ha with rfl | ha'
      · exact hl.1 x hx
      · exact hcross a ha' x (List.mem_cons_of_mem _ hx)

theorem sortByCountDesc_pairwise {R : Value × Nat → Value × Nat → Prop}
    {l : List (Value × Nat)} (hl : l.Pairwise R) :
    (sortByCountDesc l).Pairwise (fun a b => b.2 < a.2 ∨ (a.2 = b.2 ∧ R a b)) :=
  foldl_insert_pairwise l [] List.Pairwise.nil hl (by simp)

theorem recordSet_of_not_mem {k : String} {c : Nat} {m : List (String × Nat)}
    (h : k ∉ m.map Prod.fst) : recordSet m k c = m ++ [(k, c)] := by
  induction m with
  | nil => rfl
  | cons q m ih =>
    obtain ⟨k0, c0⟩ := q
    have hne : k0 ≠ k := fun he => h (by simp [he])
    simp only [recordSet, if_neg hne, List.cons_append, List.cons.injEq, true_and]
    exact ih (fun hm => h (by
      simp only [List.map_cons]
      exact List.mem_cons_of_mem _ hm))

theorem foldl_recordSet_eq (l : List (Value × Nat)) :
    ∀ acc, (l.map (fun p => toKey p.1)).Nodup →
    (∀ p ∈ l, toKey p.1 ∉ acc.map Prod.fst) →
    l.foldl (fun m p => recordSet m (toKey p.1) p.2) acc =
      acc ++ l.map (fun p => (toKey p.1, p.2)) := by
  induction l with
  | nil => intro acc _ _; simp
  | cons p l ih =>
    intro acc hnd hacc
    rw [List.map_cons, List.nodup_cons] at hnd
    rw [List.foldl_cons, recordSet_of_not_mem (hacc p (List.mem_cons_self p l))]
    have hacc' : ∀ q ∈ l, toKey q.1 ∉ (acc ++ [(toKey p.1, p.2)]).map Prod.fst := by
      intro q hq hmem
      rw [List.map_append] at hmem
      rcases List.mem_append.mp hmem with h1 | h2
      · exact hacc q (List.mem_cons_of_mem _ hq) h1
      · have h2' : toKey q.1 = toKey p.1 := by simpa using h2
        exact hnd.1 (h2' ▸ List.mem_map_of_mem _ hq)
    rw [ih _ hnd.2 hacc']
    simp

theorem buildRecord_eq {l : List (Value × Nat)}
    (hnd : (l.map (fun p => toKey p.1)).Nodup) :
    buildRecord l = l.map (fun p => (toKey p.1, p.2)) := by
  simpa using foldl_recordSet_eq l [] hnd (by simp)

theorem recordKeyOrder_of_no_index {m : List (String × Nat)}
    (h : ∀ p ∈ m, isIndexKey p.1 = false) : recordKeyOrder m = m := by
  have h1 : m.filter (fun p => isIndexKey p.1) = [] := by
    rw [List.filter_eq_nil_iff]
    intro p hp
    simp [h p hp]
  have h2 : m.filter (fun p => !(isIndexKey p.1)) = m := by
    rw [List.filter_eq_self]
    intro p hp
    simp [h p hp]
  rw [recordKeyOrder, h1, h2]
  rfl

theorem str_toKey_of_plain {v : Value} (hp : isPlainStr v = true) :
    Value.str (toKey v) = v := by
  cases v with
  | str w => rfl
  | num x => simp [isPlainStr] at hp
  | bool b => simp [isPlainStr] at hp
  | null => simp [isPlainStr] at hp
  | undefined => simp [isPlainStr] at hp

theorem no_index_of_plain {v : Value} (hp : isPlainStr v = true) :
    isIndexKey (toKey v) = false := by
  cases v with
  | str w => simpa [isPlainStr, toKey] using hp
  | num x => simp [isPlainStr] at hp
  | bool b => simp [isPlainStr] at hp
  | null => simp [isPlainStr] at hp
  | undefined => simp [isPlainStr] at hp

theorem plain_firstOccs {s : Series} (h : ∀ v ∈ s.values, isPlainStr v = true) :
    ∀ v ∈ firstOccs s.values, isPlainStr v = true :=
  fun v hv => h v (mem_firstOccs.mp hv)

theorem plain_fst_of_mem_counts {s : Series} (h : ∀ v ∈ s.values, isPlainStr v = true)
    {a : Value × Nat} (ha : a ∈ countsList s.values) : isPlainStr a.1 = true := by
  rw [countsList_eq] at ha
  obtain ⟨v, hv, hva⟩ := List.mem_map.mp ha
  rw [← hva]
  exact plain_firstOccs h v hv

theorem countsKeys_nodup {s : Series} (h : ∀ v ∈ s.values, isPlainStr v = true) :
    ((countsList s.values).map (fun p => toKey p.1)).Nodup := by
  rw [countsList_eq, List.map_map]
  refine List.Nodup.map_on ?_ nodup_firstOccs
  intro x hx y hy hxy
  have hx' := str_toKey_of_plain (plain_firstOccs h x hx)
  have hy' := str_toKey_of_plain (plain_firstOccs h y hy)
  rw [← hx', ← hy']
  exact congrArg Value.str hxy

theorem entries_mem_char {s : Series} (h : ∀ v ∈ s.values, isPlainStr v = true)
    {E : List (Value × Nat)} (hperm : E.Perm (countsList s.values)) (w : String) (c : Nat) :
    ((w, c) ∈ E.map (fun p => (toKey p.1, p.2)) ↔
      Value.str w ∈ s.values ∧ c = s.values.count (Value.str w)) := by
  rw [List.mem_map]
  constructor
  · rintro ⟨p, hp, hpe⟩
    have hpcs : p ∈ countsList s.values := hperm.mem_iff.mp hp
    rw [countsList_eq] at hpcs
    obtain ⟨v, hv, hvp⟩ := List.mem_map.mp hpcs
    have hvplain := plain_firstOccs h v hv
    cases hpe
    rw [← hvp]
    simp only []
    rw [str_toKey_of_plain hvplain]
    exact ⟨mem_firstOccs.mp hv, rfl⟩
  · rintro ⟨hmem, hc⟩
    refine ⟨(Value.str w, s.values.count (Value.str w)), ?_, ?_⟩
    · apply hperm.mem_iff.mpr
      rw [countsList_eq]
      exact List.mem_map_of_mem _ (mem_firstOccs.mpr hmem)
    · rw [hc]
      rfl

theorem countsList_pairwise_idx (s : Series) :
    (countsList s.values).Pairwise
      (fun a b => s.values.indexOf a.1 < s.values.indexOf b.1) := by
  rw [countsList_eq, List.pairwise_map]
  exact firstOccs_pairwise_idx s.values

theorem valueCounts_true_eq {s : Series} (h : ∀ v ∈ s.values, isPlainStr v = true) :
    s.valueCounts true =
      (sortByCountDesc (countsList s.values)).map (fun p => (toKey p.1, p.2)) := by
  show recordKeyOrder (buildRecord (sortByCountDesc (countsList s.values))) = _
  have hnd : ((sortByCountDesc (countsList s.values)).map (fun p => toKey p.1)).Nodup :=
    (List.Perm.nodup_iff ((sortByCountDesc_perm _).map _)).mpr (countsKeys_nodup h)
  rw [buildRecord_eq hnd]
  apply recordKeyOrder_of_no_index
  intro p hp
  obtain ⟨q, hq, hqp⟩ := List.mem_map.mp hp
  have hqplain := plain_fst_of_mem_counts h ((sortByCountDesc_perm _).mem_iff.mp hq)
  rw [← hqp]
  exact no_index_of_plain hqplain

theorem valueCounts_false_eq {s : Series} (h : ∀ v ∈ s.values, isPlainStr v = true) :
    s.valueCounts false = (countsList s.values).map (fun p => (toKey p.1, p.2)) := by
  show recordKeyOrder (buildRecord (countsList s.values)) = _
  rw [buildRecord_eq (countsKeys_nodup h)]
  apply recordKeyOrder_of_no_index
  intro p hp
  obtain ⟨q, hq, hqp⟩ := List.mem_map.mp hp
  have hqplain := plain_fst_of_mem_counts h hq
  rw [← hqp]
  exact no_index_of_plain hqplain

/-- C4 — corrected (amended claim).  For every Series of plain string
values, none of which is an array-index string (such values survive the
record conversion with their identity and insertion order intact),
`valueCounts(desc=true)` is the mapping from each distinct value to its
occurrence count, ordered by count descending with values of equal count
in first-seen order, and `valueCounts(desc=false)` keeps first-occurrence
order.  (For other values the record's own key ordering and key
stringification intervene — see the counterexample and C10.) -/
theorem valueCounts_amended_spec (s : Series)
    (h : ∀ v ∈ s.values, isPlainStr v = true) :
    (∀ w c, ((w, c) ∈ s.valueCounts true ↔
      Value.str w ∈ s.values ∧ c = s.values.count (Value.str w))) ∧
    (s.valueCounts true).Pairwise (fun p q => q.2 < p.2 ∨
      (p.2 = q.2 ∧ s.values.indexOf (Value.str p.1) < s.values.indexOf (Value.str q.1))) ∧
    (∀ w c, ((w, c) ∈ s.valueCounts false ↔
      Value.str w ∈ s.values ∧ c = s.values.count (Value.str w))) ∧
    (s.valueCounts false).Pairwise (fun p q =>
      s.values.indexOf (Value.str p.1) < s.values.indexOf (Value.str q.1)) := by
  refine ⟨?_, ?_, ?_, ?_⟩
  · intro w c
    rw [valueCounts_true_eq h]
    exact entries_mem_char h (sortByCountDesc_perm _) w c
  · rw [valueCounts_true_eq h, List.pairwise_map]
    refine (sortByCountDesc_pairwise (countsList_pairwise_idx s)).imp_of_mem ?_
    intro a b ha hb hab
    have hap := plain_fst_of_mem_counts h ((sortByCountDesc_perm _).mem_iff.mp ha)
    have hbp := plain_fst_of_mem_counts h ((sortByCountDesc_perm _).mem_iff.mp hb)
    rcases hab with h1 | ⟨h1, h2⟩
    · exact Or.inl h1
    · refine Or.inr ⟨h1, ?_⟩
      rw [str_toKey_of_plain hap, str_toKey_of_plain hbp]
      exact h2
  · intro w c
    rw [valueCounts_false_eq h]
    exact entries_mem_char h (List.Perm.refl _) w c
  · rw [valueCounts_false_eq h, List.pairwise_map]
    refine (countsList_pairwise_idx s).imp_of_mem ?_
    intro a b ha hb hab
    rw [str_toKey_of_plain (plain_fst_of_mem_counts h ha),
      str_toKey_of_plain (plain_fst_of_mem_counts h hb)]
    exact hab

/-- C4 witness: the spec's example `['a','b','a','c','a','d']` consists of
plain string values, so the amended theorem applies to it. -/
theorem valueCounts_amended_spec_inst :
    (∀ v ∈ sC4.values, isPlainStr v = true) ∧
    ((∀ w c, ((w, c) ∈ sC4.valueCounts true ↔
      Value.str w ∈ sC4.values ∧ c = sC4.values.count (Value.str w))) ∧
    (sC4.valueCounts true).Pairwise (fun p q => q.2 < p.2 ∨
      (p.2 = q.2 ∧ sC4.values.indexOf (Value.str p.1) < sC4.values.indexOf (Value.str q.1))) ∧
    (∀ w c, ((w, c) ∈ sC4.valueCounts false ↔
      Value.str w ∈ sC4.values ∧ c = sC4.values.count (Value.str w))) ∧
    (sC4.valueCounts false).Pairwise (fun p q =>
      sC4.values.indexOf (Value.str p.1) < sC4.values.indexOf (Value.str q.1))) :=
  ⟨by decide, valueCounts_amended_spec sC4 (by decide)⟩

/-! ### The `DataFrame` constructor -/

theorem rowError_eq_none {keys : List String} {r : JVal} :
    rowError keys r = none ↔
      (isObjNonNull r = true ∧ sameKeysAs keys (objKeys r) = true) := by
  unfold rowError
  by_cases h1 : isObjNonNull r <;> by_cases h2 : sameKeysAs keys (objKeys r) <;>
    simp [h1, h2]

theorem sameKeysAs_iff_perm {keys rowKeys : List String}
    (h2 : rowKeys.Nodup) :
    sameKeysAs keys rowKeys = true ↔ rowKeys.Perm keys := by
  unfold sameKeysAs
  rw [Bool.and_eq_true, beq_iff_eq, List.all_eq_true]
  constructor
  · rintro ⟨hlen, hsub⟩
    have hsub' : rowKeys ⊆ keys := fun k hk => by
      simpa using hsub k hk
    exact (List.subperm_of_subset h2 hsub').perm_of_length_le (le_of_eq hlen.symm)
  · intro hp
    refine ⟨hp.length_eq, ?_⟩
    intro k hk
    simpa using hp.subset hk

/-- C5 — theorem for the amended claim.  For any input whose objects have
duplicate-free key lists (always true of real JS objects), construction
succeeds exactly on a nonempty array of non-null objects with pairwise
equal key sets, or a nonempty plain object of equal-length arrays; on
everything else it throws a descriptive error, and no partially
constructed table is observable (the `Except` only carries a table on
success). -/
theorem ctor_ok_iff_amended (d : JVal) (hwf : WfInput d) :
    (∃ df, dfCtor d = Except.ok df) ↔ AmendedValid d := by
  cases d with
  | prim v => simp [dfCtor, AmendedValid]
  | varr rows =>
    cases rows with
    | nil => simp [dfCtor, AmendedValid]
    | cons r0 rest =>
      by_cases h0 : isObjNonNull r0
      · rcases hfs : (r0 :: rest).findSome? (rowError (objKeys r0)) with _ | e
        · have hall := List.findSome?_eq_none_iff.mp hfs
          have hok : dfCtor (JVal.varr (r0 :: rest)) = Except.ok
              ⟨(objKeys r0).map (fun k => (k, (r0 :: rest).map (fun r => getProp r k)))⟩ := by
            simp [dfCtor, h0, hfs]
          constructor
          · intro _
            refine ⟨List.cons_ne_nil r0 rest, objKeys r0, ?_⟩
            intro r hr
            have hre := rowError_eq_none.mp (hall r hr)
            refine ⟨hre.1, ?_⟩
            exact (sameKeysAs_iff_perm (hwf r hr)).mp hre.2
          · intro _
            exact ⟨_, hok⟩
        · have herr : dfCtor (JVal.varr (r0 :: rest)) = Except.error e := by
            simp [dfCtor, h0, hfs]
          constructor
          · rintro ⟨df, hdf⟩
            rw [herr] at hdf
            exact absurd hdf (by simp)
          · rintro ⟨-, ks, hval⟩
            have hnone : (r0 :: rest).findSome? (rowError (objKeys r0)) = none := by
              rw [List.findSome?_eq_none_iff]
              intro r hr
              rw [rowError_eq_none]
              refine ⟨(hval r hr).1, ?_⟩
              rw [sameKeysAs_iff_perm (hwf r hr)]
              exact ((hval r hr).2).trans
                ((hval r0 (List.mem_cons_self r0 rest)).2).symm
            rw [hfs] at hnone
            exact absurd hnone (by simp)
      · have herr : dfCtor (JVal.varr (r0 :: rest)) =
            Except.error "DataFrame constructor: expected a non-empty array of objects." := by
          simp [dfCtor, h0]
        constructor
        · rintro ⟨df, hdf⟩
          rw [herr] at hdf
          exact absurd hdf (by simp)
        · rintro ⟨-, ks, hval⟩
          exact absurd ((hval r0 (List.mem_cons_self r0 rest)).1) h0
  | vobj fs =>
    cases fs with
    | nil => simp [dfCtor, AmendedValid]
    | cons f0 fs =>
      by_cases hneg : ((f0 :: fs).map (fun p => arrLenOrNeg p.2)).contains (-1)
      · have herr : dfCtor (JVal.vobj (f0 :: fs)) =
            Except.error "DataFrame constructor: all values in object must be arrays." := by
          simp only [dfCtor, if_pos hneg]
        constructor
        · rintro ⟨df, hdf⟩
          rw [herr] at hdf
          exact absurd hdf (by simp)
        · rintro ⟨-, n, hval⟩
          have hmem : (-1 : Int) ∈ (f0 :: fs).map (fun p => arrLenOrNeg p.2) := by
            simpa using hneg
          obtain ⟨f, hf, hfneg⟩ := List.mem_map.mp hmem
          obtain ⟨es, hfe, -⟩ := hval f hf
          rw [hfe] at hfneg
          simp [arrLenOrNeg] at hfneg
      · by_cases hall : ((f0 :: fs).map (fun p => arrLenOrNeg p.2)).all
            (fun len => len == arrLenOrNeg f0.2)
        · have hok : dfCtor (JVal.vobj (f0 :: fs)) =
              Except.ok ⟨(f0 :: fs).map (fun p => (p.1, arrElems p.2))⟩ := by
            simp only [dfCtor, if_neg hneg, if_pos hall]
          constructor
          · intro _
            refine ⟨List.cons_ne_nil f0 fs, (arrLenOrNeg f0.2).toNat, ?_⟩
            intro f hf
            have hfne : arrLenOrNeg f.2 ≠ -1 := by
              intro he
              exact hneg (by
                simp only [List.contains_eq_any_beq, List.any_eq_true]
                exact ⟨arrLenOrNeg f.2, List.mem_map_of_mem _ hf, by simp [he]⟩)
            obtain ⟨es, hes⟩ : ∃ es, f.2 = JVal.varr es := by
              cases hv : f.2 with
              | varr es => exact ⟨es, rfl⟩
              | prim v => rw [hv] at hfne; simp [arrLenOrNeg] at hfne
              | vobj g => rw [hv] at hfne; simp [arrLenOrNeg] at hfne
            refine ⟨es, hes, ?_⟩
            have := List.all_eq_true.mp hall _ (List.mem_map_of_mem _ hf)
            rw [beq_iff_eq, hes] at this
            rw [show arrLenOrNeg (JVal.varr es) = (es.length : Int) from rfl] at this
            omega
          · intro _
            exact ⟨_, hok⟩
        · have herr : dfCtor (JVal.vobj (f0 :: fs)) =
              Except.error "DataFrame constructor: all arrays must have the same length." := by
            simp only [dfCtor, if_neg hneg, if_neg hall]
          constructor
          · rintro ⟨df, hdf⟩
            rw [herr] at hdf
            exact absurd hdf (by simp)
          · rintro ⟨-, n, hval⟩
            exfalso
            apply hall
            rw [List.all_eq_true]
            intro len hlen
            obtain ⟨f, hf, hfl⟩ := List.mem_map.mp hlen
            obtain ⟨es, hes, hlen'⟩ := hval f hf
            obtain ⟨es0, hes0, hlen0⟩ := hval f0 (List.mem_cons_self f0 fs)
            rw [← hfl, hes, hes0]
            simp only [arrLenOrNeg, beq_iff_eq]
            omega

/-- C5 witness: `{a: [1,2], b: ["x","y"]}` has duplicate-free keys, so the
amended equivalence applies to it. -/
theorem ctor_ok_iff_amended_inst :
    WfInput dC5ok ∧ ((∃ df, dfCtor dC5ok = Except.ok df) ↔ AmendedValid dC5ok) :=
  ⟨by decide, ctor_ok_iff_amended dC5ok (by decide)⟩

/-! ### Row reconstruction (`iloc`) -/

theorem isRecordRow_exists {r : JVal} (h : isRecordRow r = true) :
    ∃ fs, r = JVal.vobj fs := by
  cases r with
  | vobj fs => exact ⟨fs, rfl⟩
  | prim v => simp [isRecordRow] at h
  | varr es => simp [isRecordRow] at h

theorem lookup_map_self (ks : List String) (g : String → JVal) (k : String) :
    (ks.map (fun k => (k, g k))).lookup k = if k ∈ ks then some (g k) else none := by
  induction ks with
  | nil => simp
  | cons a ks ih =>
    by_cases hk : k = a
    · subst hk
      simp [List.lookup]
    · have hba : (k == a) = false := beq_eq_false_iff_ne.mpr hk
      simp [List.lookup, hba, hk, ih]

theorem lookup_eq_none_of_not_mem {fs : List (String × JVal)} {k : String}
    (h : k ∉ fs.map Prod.fst) : fs.lookup k = none := by
  induction fs with
  | nil => rfl
  | cons p fs ih =>
    obtain ⟨k0, v0⟩ := p
    simp only [List.map_cons, List.mem_cons, not_or] at h
    have hba : (k == k0) = false := beq_eq_false_iff_ne.mpr h.1
    simp [List.lookup, hba, ih h.2]

theorem lookup_isSome_of_mem {fs : List (String × JVal)} {k : String}
    (h : k ∈ fs.map Prod.fst) : ∃ v, fs.lookup k = some v := by
  induction fs with
  | nil => simp at h
  | cons p fs ih =>
    obtain ⟨k0, v0⟩ := p
    by_cases hk : k = k0
    · subst hk
      exact ⟨v0, by simp [List.lookup]⟩
    · simp only [List.map_cons, List.mem_cons] at h
      rcases h with h | h
      · exact absurd h hk
      · obtain ⟨v, hv⟩ := ih h
        refine ⟨v, ?_⟩
        have hba : (k == k0) = false := beq_eq_false_iff_ne.mpr hk
        simpa [List.lookup, hba] using hv

theorem getD_map_of_lt {rows : List JVal} (f : JVal → JVal) {i : Nat}
    (hi : i < rows.length) (d : JVal) :
    (rows.map f).getD i d = f (rows.get ⟨i, hi⟩) := by
  rw [List.getD_eq_getElem?_getD, List.getElem?_map,
    List.getElem?_eq_getElem hi]
  simp [List.get_eq_getElem]

/-- C8 — confirmed.  For a valid row-records input (every row a record
with duplicate-free keys, accepted by the constructor) and any in-range
row index `i`, `iloc(i)` is, as a column-name→value mapping, exactly the
`i`-th original row record: the two agree under lookup on every key. -/
theorem iloc_reconstructs_row (rows : List JVal) (df : DataFrame)
    (hok : dfCtor (JVal.varr rows) = Except.ok df)
    (hrec : ∀ r ∈ rows, isRecordRow r = true ∧ (objKeys r).Nodup)
    (i : Nat) (hi : i < rows.length) :
    ∀ k, (df.iloc i).lookup k = (rowFields (rows.get ⟨i, hi⟩)).lookup k := by
  cases rows with
  | nil => simp [dfCtor] at hok
  | cons r0 rest =>
    by_cases h0 : isObjNonNull r0
    · rcases hfs : (r0 :: rest).findSome? (rowError (objKeys r0)) with _ | e
      · have hdf : df =
            ⟨(objKeys r0).map (fun k => (k, (r0 :: rest).map (fun r => getProp r k)))⟩ := by
          have h := hok
          simp only [dfCtor, h0, Bool.not_true, Bool.false_eq_true, if_false, hfs,
            Except.ok.injEq] at h
          exact h.symm
        set rowi := (r0 :: rest).get ⟨i, hi⟩ with hrowi
        have hmem : rowi ∈ r0 :: rest := List.get_mem _ _ _
        have hre := rowError_eq_none.mp (List.findSome?_eq_none_iff.mp hfs rowi hmem)
        have hperm : (objKeys rowi).Perm (objKeys r0) :=
          (sameKeysAs_iff_perm (hrec rowi hmem).2).mp hre.2
        obtain ⟨fs, hfs'⟩ := isRecordRow_exists (hrec rowi hmem).1
        intro k
        have hiloc : df.iloc i =
            (objKeys r0).map (fun k => (k, getProp rowi k)) := by
          rw [hdf]
          show ((objKeys r0).map
            (fun k => (k, (r0 :: rest).map (fun r => getProp r k)))).map
              (fun p => (p.1, p.2.getD i (.prim .undefined))) = _
          rw [List.map_map]
          refine List.map_congr_left (fun a _ => ?_)
          simp only [Function.comp_apply]
          rw [getD_map_of_lt _ hi]
        rw [hiloc, lookup_map_self, hfs']
        have hkeys : k ∈ objKeys r0 ↔ k ∈ fs.map Prod.fst := by
          rw [show fs.map Prod.fst = objKeys rowi by rw [hfs']; rfl]
          exact ⟨fun hk => hperm.mem_iff.mpr hk, fun hk => hperm.mem_iff.mp hk⟩
        rw [show rowFields (JVal.vobj fs) = fs from rfl]
        by_cases hk : k ∈ objKeys r0
        · rw [if_pos hk]
          obtain ⟨v, hv⟩ := lookup_isSome_of_mem (hkeys.mp hk)
          rw [hv]
          show some ((fs.lookup k).getD (.prim .undefined)) = some v
          rw [hv]
          rfl
        · rw [if_neg hk]
          exact (lookup_eq_none_of_not_mem (fun hm => hk (hkeys.mpr hm))).symm
      · simp only [dfCtor, h0, Bool.not_true, Bool.false_eq_true, if_false, hfs] at hok
        exact absurd hok (by simp)
    · simp only [dfCtor, h0, Bool.not_false, if_true] at hok
      exact absurd hok (by simp)

/-- C8 witness: `[{a:1, b:2}, {b:20, a:10}]` (second row's keys reversed)
is accepted, and `iloc(1)` agrees with the second record on every key. -/
theorem iloc_reconstructs_row_inst :
    dfCtor (JVal.varr rowsC8) = Except.ok dfC8 ∧
    (∀ r ∈ rowsC8, isRecordRow r = true ∧ (objKeys r).Nodup) ∧
    1 < rowsC8.length ∧
    (∀ k, (dfC8.iloc 1).lookup k =
      (rowFields (rowsC8.get ⟨1, by decide⟩)).lookup k) :=
  ⟨rfl, by decide, by decide,
    iloc_reconstructs_row rowsC8 dfC8 rfl (by decide) 1 (by decide)⟩

/-- C3 — confirmed.  `mode()` returns `null` exactly on the empty Series;
on a non-empty Series it returns a value `v` of maximal occurrence count
such that every other value attaining that count occurs for the first
time no earlier than `v` — the tie-break is the first value to reach the
maximal count in insertion order, so a uniform-frequency sequence yields
its first element. -/
theorem mode_first_max_spec (s : Series) :
    (s.values = [] → s.mode = none) ∧
    (s.values ≠ [] → ∃ v, s.mode = some v ∧ v ∈ s.values ∧
      (∀ w : Value, s.values.count w ≤ s.values.count v) ∧
      (∀ w ∈ s.values, s.values.count w = s.values.count v →
        s.values.indexOf v ≤ s.values.indexOf w)) := by
  constructor
  · intro h
    simp [Series.mode, h]
  · intro hne
    have hlen : ¬ s.values.length = 0 := fun h => hne (List.length_eq_zero.mp h)
    have hmode : s.mode = ((countsList s.values).foldl modeStep (none, 0)).1 := by
      simp [Series.mode, hlen]
    have hcs := countsList_eq s.values
    obtain ⟨a, ha⟩ := List.exists_mem_of_ne_nil s.values hne
    have hex : ∃ p ∈ countsList s.values, ((none : Option Value), 0).2 < p.2 := by
      refine ⟨(a, s.values.count a), ?_, ?_⟩
      · rw [hcs]
        exact List.mem_map_of_mem _ (mem_firstOccs.mpr ha)
      · simpa using List.count_pos_iff.mpr ha
    obtain ⟨i, hi, heq, hacc, hmax, hfirst⟩ := foldl_modeStep_spec _ _ hex
    have hiF : i < (firstOccs s.values).length := by
      rw [hcs, List.length_map] at hi
      exact hi
    have hgi : (countsList s.values)[i] =
        ((firstOccs s.values)[i], s.values.count ((firstOccs s.values)[i])) := by
      rw [List.getElem_of_eq hcs hi, List.getElem_map]
    refine ⟨(firstOccs s.values)[i], ?_, ?_, ?_, ?_⟩
    · rw [hmode, heq, hgi]
    · exact mem_firstOccs.mp (List.getElem_mem hiF)
    · intro w
      by_cases hw : w ∈ s.values
      · obtain ⟨j, hj, hjw⟩ := List.mem_iff_getElem.mp (mem_firstOccs.mpr hw)
        have hjcs : j < (countsList s.values).length := by
          rw [hcs, List.length_map]
          exact hj
        have hle := hmax j hjcs
        have hgj : (countsList s.values)[j] =
            ((firstOccs s.values)[j], s.values.count ((firstOccs s.values)[j])) := by
          rw [List.getElem_of_eq hcs hjcs, List.getElem_map]
        rw [hgi, hgj] at hle
        simpa [hjw] using hle
      · rw [List.count_eq_zero.mpr hw]
        exact Nat.zero_le _
    · intro w hw hcnt
      obtain ⟨j, hj, hjw⟩ := List.mem_iff_getElem.mp (mem_firstOccs.mpr hw)
      have hjcs : j < (countsList s.values).length := by
        rw [hcs, List.length_map]
        exact hj
      have hgj : (countsList s.values)[j] =
          ((firstOccs s.values)[j], s.values.count ((firstOccs s.values)[j])) := by
        rw [List.getElem_of_eq hcs hjcs, List.getElem_map]
      rcases Nat.lt_trichotomy j i with hlt | heqj | hgt
      · exfalso
        have hstrict := hfirst j hjcs hlt
        rw [hgi, hgj] at hstrict
        rw [hjw] at hstrict
        exact absurd hcnt (Nat.ne_of_lt hstrict)
      · subst heqj
        rw [hjw]
      · have hpw := (List.pairwise_iff_getElem.mp (firstOccs_pairwise_idx s.values))
          i j hiF hj hgt
        rw [hjw] at hpw
        exact le_of_lt hpw

/-- C3 witness: the spec's uniform-start example `[1, 1, 2, 3]` is
non-empty, so the theorem applies and yields its mode facts. -/
theorem mode_first_max_spec_inst :
    sC3.values ≠ [] ∧ (∃ v, sC3.mode = some v ∧ v ∈ sC3.values ∧
      (∀ w : Value, sC3.values.count w ≤ sC3.values.count v) ∧
      (∀ w ∈ sC3.values, sC3.values.count w = sC3.values.count v →
        sC3.values.indexOf v ≤ sC3.values.indexOf w)) :=
  ⟨by decide, (mode_first_max_spec sC3).2 (by decide)⟩

/-- C1 — code bug.  For `n` strictly greater than the length, `head(n)`
does return all elements, but `tail(n)` does not: `slice` receives the
negative start `length - n`, which JS counts from the end.  On
`new Series([1,2,3])`, `tail(4)` returns `Series([3])`, not all three
elements, refuting the claim at this input. -/
theorem tail_overflow_bug :
    s123.head 4 = Series.mk [.num (.fin 1), .num (.fin 2), .num (.fin 3)] ∧
    s123.tail 4 = Series.mk [.num (.fin 3)] ∧
    s123.tail 4 ≠ s123 := by
  refine ⟨by decide, by decide, by decide⟩

/-- C2 — code bug.  On the empty Series the all-numeric guard is vacuous,
`sum()` is `0`, and `mean()` evaluates `0 / 0 = NaN`: the claimed
divide-by-zero guard is absent, so `mean()` is the number `NaN`, not
`null` (the repo's own test expects `null` here). -/
theorem mean_empty_bug :
    (Series.mk []).mean = some JsNum.nan ∧ (Series.mk []).mean ≠ none := by
  refine ⟨rfl, by decide⟩

/-- C9 — confirmed.  On the empty Series the all-numeric guard holds
vacuously and the scans never update their seeds, so `max()` returns
`-Infinity` and `min()` returns `Infinity` — neither `null` nor an
error. -/
theorem max_min_empty_spec :
    (Series.mk []).max = some JsNum.ninf ∧ (Series.mk []).min = some JsNum.inf :=
  ⟨rfl, rfl⟩

/-- C10 — confirmed.  On `new Series([1, 1, "1"])` the counting Map keeps
the number `1` (count 2) and the string `"1"` (count 1) as separate
entries, but both become the property key `"1"`; the later write
overwrites the earlier count, so `valueCounts(true)` is `{"1": 1}` and
its counts sum to `1`, not the Series length `3`. -/
theorem valueCounts_string_key_collision :
    countsList sC10.values = [(.num (.fin 1), 2), (.str "1", 1)] ∧
    sC10.valueCounts true = [("1", 1)] ∧
    ((sC10.valueCounts true).foldl (fun n p => n + p.2) 0 = 1 ∧ sC10.length = 3) := by
  refine ⟨by decide, by decide, by decide, by decide⟩

/-- C4 — counterexample.  On `new Series([5, 5, 1])` the sorted entry
array is `[(5,2), (1,1)]`, but the returned object stores the counts
under the array-index keys `"5"` and `"1"`, which JS enumerates in
ascending numeric order: the entries come out `[("1",1), ("5",2)]` —
not ordered by count descending, refuting the claim as stated. -/
theorem valueCounts_desc_counterexample :
    sC4bad.valueCounts true = [("1", 1), ("5", 2)] ∧
    ¬ (sC4bad.valueCounts true).Pairwise (fun p q => q.2 ≤ p.2) := by
  refine ⟨by decide, by decide⟩

/-- C5 — counterexample.  `new DataFrame([[1,2],[3,4]])` is not made of
row-records (its rows are arrays), so the claim says construction fails;
but arrays are objects whose keys are their index strings, both rows have
the key set `{"0","1"}`, and the constructor succeeds, building columns
`"0"` and `"1"`. -/
theorem ctor_validity_counterexample :
    claimValidInput dC5bad = false ∧
    dfCtor dC5bad =
      Except.ok ⟨[("0", [.prim (.num (.fin 1)), .prim (.num (.fin 3))]),
                  ("1", [.prim (.num (.fin 2)), .prim (.num (.fin 4))])]⟩ := by
  refine ⟨rfl, rfl⟩

/-- C6 — code bug.  `loc` does fail as claimed (range error for a row
index out of `[0, rowCount)`, not-found error for an unknown column), but
the column statistics do not: on an unknown column, `sum` (like `max`,
`min`, `mean`, `median`, `mode`) only logs the not-found message with
`console.error` and then evaluates `this.columns[k].sum()`, which throws
a generic `TypeError` on `undefined` — not the descriptive not-found
error the claim requires. -/
theorem stat_unknown_column_bug :
    dC6.loc 5 "name" = Except.error "Row index 5 out of range" ∧
    dC6.loc 2 "name" = Except.ok (.prim (.str "C")) ∧
    dC6.loc 0 "missing" = Except.error "Column \x22missing\x22 does not exist" ∧
    dC6.sumCol "missing" =
      (["Column \x22missing\x22 does not exist in DataFrame."],
        Except.error "TypeError: Cannot read properties of undefined (reading \x27sum\x27)") := by
  refine ⟨rfl, rfl, rfl, rfl⟩

/-- C7 — code bug.  Property assignment on the DataFrame itself always
hits the Proxy `set` trap and throws (first two conjuncts), but a cell
write that goes through the unproxied `Series`' `values` array —
`df.columns["a"].values[0] = 99` — silently succeeds and changes the
stored value from `1` to `99`, refuting "any attempted direct assignment
to a cell fails … and leaves the Table unchanged". -/
theorem cell_mutation_bug :
    (∀ p v, dfProxySet dC7 p v =
      Except.error "Direct assignment to Dataframe value is not allowed.") ∧
    cellNum (dfSetCellViaValues dC7 "a" 0 (.prim (.num (.fin 99)))) "a" 0 = some (.fin 99) ∧
    cellNum dC7 "a" 0 = some (.fin 1) ∧
    dfSetCellViaValues dC7 "a" 0 (.prim (.num (.fin 99))) ≠ dC7 := by
  refine ⟨fun _ _ => rfl, rfl, rfl, ?_⟩
  intro h
  have h2 := congrArg (fun d => cellNum d "a" 0) h
  have h3 : cellNum (dfSetCellViaValues dC7 "a" 0 (.prim (.num (.fin 99)))) "a" 0 =
      cellNum dC7 "a" 0 := h2
  rw [show cellNum (dfSetCellViaValues dC7 "a" 0 (.prim (.num (.fin 99)))) "a" 0 =
      some (.fin 99) from rfl,
    show cellNum dC7 "a" 0 = some (.fin 1) from rfl] at h3
  exact absurd h3 (by decide)

end TinyPanda
